import Mathlib

/-!
Shallow embedding of `src/cache-connector.js` (deepstream.io-cache-redis):
a write-behind coalescing layer in front of Redis. The connector keeps three
JavaScript `Map`s (`sets`, `gets`, `deletes`) of pending operations, arms a
single `process.nextTick(flush)` trigger via a boolean `timeoutSet` flag, and
on `flush` builds one pipelined batch (setex/set commands, then del commands,
then get commands), clears the maps and executes the pipeline.

Modelling choices, all read off the source:
- A JS `Map` is an insertion-ordered association list with unique keys;
  `Map.set` overwrites in place, `Map.delete` removes the entry, iteration
  follows insertion order.
- Callbacks are identified by natural numbers; a command in a batch carries
  the identifier of the callback that the code wires to it, and the store's
  pipelining contract ("one result per command") invokes each wired callback
  exactly once, so "callback invoked" is modelled as "identifier appears in
  an emitted command".
- `JSON.stringify` can throw in JavaScript (e.g. on circular structures), so
  serialization is a function `V → Option String`; `none` models the thrown
  exception, which the source does not catch, and an operation that hits it
  is modelled as `none` (the exception propagates out of the call).
- `process.nextTick(this.flush)` enqueues a flush callback on the host event
  loop; the model keeps a counter `queued` of enqueued flush callbacks and a
  `windowEnd` event that drains them in FIFO order (the end of the
  cooperative execution window).
- Line 59, `this.sets.delete(key)`, discards a pending set entry without
  ever invoking its callback; the model additionally reports the discarded
  callback identifiers in a `dropped` output so that callback accounting can
  be stated (this output is pure instrumentation of that single line).
-/

namespace RedisCache

/-- JS `Map.has`: does the insertion-ordered association list hold the key? -/
def mapHas (m : List (String × α)) (k : String) : Bool :=
  m.any (fun e => e.1 == k)

/-- JS `Map.set`: overwrite in place if the key is present, else append. -/
def mapSet (m : List (String × α)) (k : String) (v : α) : List (String × α) :=
  match m with
  | [] => [(k, v)]
  | e :: rest => if e.1 == k then (k, v) :: rest else e :: mapSet rest k v

/-- JS `Map.delete`: remove the entry for the key, if any. -/
def mapDelete (m : List (String × α)) (k : String) : List (String × α) :=
  match m with
  | [] => []
  | e :: rest => if e.1 == k then rest else e :: mapDelete rest k

/-- JS `Map.get`: the value stored under the key, if any. -/
def mapLookup (m : List (String × α)) (k : String) : Option α :=
  match m with
  | [] => none
  | e :: rest => if e.1 == k then some e.2 else mapLookup rest k

/-- The connector options consumed by the core: `options.ttl`.  `none` models
an absent setting; JS truthiness makes both `undefined` and `0` fall to the
plain-`set` branch of `flush`. -/
structure Options where
  ttl : Option Nat

/-- The mutable state of a `CacheConnector` instance (`V` is the type of the
opaque values passed to `set`): the three pending maps, the boolean
`timeoutSet` flag, and the number of `process.nextTick(flush)` callbacks
currently enqueued on the host event loop. -/
structure CacheConnector (V : Type) where
  sets : List (String × V × Nat)
  gets : List (String × Nat)
  deletes : List (String × Nat)
  timeoutSet : Bool
  queued : Nat
deriving Repr

/-- The state right after the constructor ran: empty maps, `timeoutSet`
still undefined (falsy), nothing enqueued. -/
def initialState (V : Type) : CacheConnector V :=
  { sets := [], gets := [], deletes := [], timeoutSet := false, queued := 0 }

/-- A command appended to the ioredis pipeline during `flush`, carrying the
identifier of the callback wired to its completion. -/
inductive RedisCmd where
  | setex (key : String) (ttl : Nat) (value : String) (cb : Nat)
  | set (key : String) (value : String) (cb : Nat)
  | del (key : String) (cb : Nat)
  | get (key : String) (cb : Nat)
deriving DecidableEq, Repr

/-- The callback identifier a command is wired to. -/
def cmdCb : RedisCmd → Nat
  | .setex _ _ _ cb => cb
  | .set _ _ cb => cb
  | .del _ cb => cb
  | .get _ cb => cb

/-- The write command `flush` appends for one pending set:
`if (this.options.ttl) pipeline.setex(key, this.options.ttl, value, callback)
else pipeline.set(key, value, callback)`. -/
def writeCmd (opts : Options) (key value : String) (cb : Nat) : RedisCmd :=
  match opts.ttl with
  | some n => if n ≠ 0 then .setex key n value cb else .set key value cb
  | none => .set key value cb

/-- The `for (let entry of sets)` loop of `flush`: serialize each pending
value with `JSON.stringify` and append a write command; a serialization
exception (`none`) propagates. -/
def buildSetCmds (serialize : V → Option String) (opts : Options) :
    List (String × V × Nat) → Option (List RedisCmd)
  | [] => some []
  | (key, value, callback) :: rest =>
    match serialize value with
    | none => none
    | some str =>
      match buildSetCmds serialize opts rest with
      | none => none
      | some cmds => some (writeCmd opts key str callback :: cmds)

namespace CacheConnector

/-- The `flush()` method: reset `timeoutSet`, build the pipeline — write commands from
`sets`, then `del` commands from `deletes`, then `get` commands from `gets`
— clear the three maps, and `exec()` the pipeline.  Returns the batch of
commands submitted and the new state; `none` models a `JSON.stringify`
exception escaping the uncaught loop. -/
def flush (serialize : V → Option String) (opts : Options) (s : CacheConnector V) :
    Option (List RedisCmd × CacheConnector V) :=
  match buildSetCmds serialize opts s.sets with
  | none => none
  | some setCmds =>
    some (setCmds
        ++ s.deletes.map (fun e => RedisCmd.del e.1 e.2)
        ++ s.gets.map (fun e => RedisCmd.get e.1 e.2),
      { sets := [], gets := [], deletes := [], timeoutSet := false, queued := s.queued })

/-- The `scheduleFlush()` method: if the boolean `timeoutSet` flag is not armed, arm it
and enqueue one `process.nextTick(this.flush)` callback. -/
def scheduleFlush (s : CacheConnector V) : CacheConnector V :=
  if s.timeoutSet then s else { s with timeoutSet := true, queued := s.queued + 1 }

/-- The callback identifiers that `this.sets.delete(key)` would discard
without invocation (instrumentation of line 59 of the source). -/
def droppedSetCbs (m : List (String × V × Nat)) (key : String) : List Nat :=
  match mapLookup m key with
  | some vc => [vc.2]
  | none => []

/-- The `set(key, value, callback)` method: on a same-key pending set, flush the whole
batch synchronously first, then insert and schedule.  Returns the batches
submitted during the call, the callbacks discarded uninvoked during the call
(none here), and the new state. -/
def set (serialize : V → Option String) (opts : Options) (key : String) (value : V)
    (callback : Nat) (s : CacheConnector V) :
    Option (List (List RedisCmd) × List Nat × CacheConnector V) :=
  if mapHas s.sets key then
    match flush serialize opts s with
    | none => none
    | some (batch, s1) =>
      some ([batch], [], scheduleFlush { s1 with sets := mapSet s1.sets key (value, callback) })
  else
    some ([], [], scheduleFlush { s with sets := mapSet s.sets key (value, callback) })

/-- The `get(key, callback)` method: on a same-key pending get, flush the whole batch
synchronously first, then insert and schedule. -/
def get (serialize : V → Option String) (opts : Options) (key : String)
    (callback : Nat) (s : CacheConnector V) :
    Option (List (List RedisCmd) × List Nat × CacheConnector V) :=
  if mapHas s.gets key then
    match flush serialize opts s with
    | none => none
    | some (batch, s1) =>
      some ([batch], [], scheduleFlush { s1 with gets := mapSet s1.gets key callback })
  else
    some ([], [], scheduleFlush { s with gets := mapSet s.gets key callback })

/-- The `delete(key, callback)` method: first `this.sets.delete(key)` (discarding any
pending set for the key without invoking its callback — reported in the
dropped output), then on a same-key pending delete flush the whole batch
synchronously, then insert and schedule. -/
def delete (serialize : V → Option String) (opts : Options) (key : String)
    (callback : Nat) (s : CacheConnector V) :
    Option (List (List RedisCmd) × List Nat × CacheConnector V) :=
  let dropped := droppedSetCbs s.sets key
  let s0 := { s with sets := mapDelete s.sets key }
  if mapHas s0.deletes key then
    match flush serialize opts s0 with
    | none => none
    | some (batch, s1) =>
      some ([batch], dropped, scheduleFlush { s1 with deletes := mapSet s1.deletes key callback })
  else
    some ([], dropped, scheduleFlush { s0 with deletes := mapSet s0.deletes key callback })

/-- Drain `n` enqueued `process.nextTick(this.flush)` callbacks in FIFO
order, collecting the batch each flush submits. -/
def drainTicks (serialize : V → Option String) (opts : Options) :
    Nat → CacheConnector V → Option (List (List RedisCmd) × CacheConnector V)
  | 0, s => some ([], s)
  | n + 1, s =>
    match flush serialize opts s with
    | none => none
    | some (batch, s1) =>
      match drainTicks serialize opts n s1 with
      | none => none
      | some (batches, s2) => some (batch :: batches, s2)

/-- The end of the cooperative execution window: the host event loop runs
every enqueued flush callback. -/
def windowEnd (serialize : V → Option String) (opts : Options) (s : CacheConnector V) :
    Option (List (List RedisCmd) × List Nat × CacheConnector V) :=
  match drainTicks serialize opts s.queued { s with queued := 0 } with
  | none => none
  | some (batches, s1) => some (batches, [], s1)

end CacheConnector

/-- An event of a run: one of the three registration calls, or the end of
the cooperative window (the host event loop draining the nextTick queue). -/
inductive Ev (V : Type) where
  | set (key : String) (value : V) (callback : Nat)
  | get (key : String) (callback : Nat)
  | del (key : String) (callback : Nat)
  | windowEnd

/-- One event against the connector state. -/
def step (serialize : V → Option String) (opts : Options) :
    Ev V → CacheConnector V → Option (List (List RedisCmd) × List Nat × CacheConnector V)
  | .set k v cb, s => CacheConnector.set serialize opts k v cb s
  | .get k cb, s => CacheConnector.get serialize opts k cb s
  | .del k cb, s => CacheConnector.delete serialize opts k cb s
  | .windowEnd, s => CacheConnector.windowEnd serialize opts s

/-- Run a sequence of events, concatenating the submitted batches and the
discarded callbacks; `none` as soon as a step raises. -/
def run (serialize : V → Option String) (opts : Options) :
    List (Ev V) → CacheConnector V →
    Option (List (List RedisCmd) × List Nat × CacheConnector V)
  | [], s => some ([], [], s)
  | e :: rest, s =>
    match step serialize opts e s with
    | none => none
    | some (bs, ds, s1) =>
      match run serialize opts rest s1 with
      | none => none
      | some (bs2, ds2, s2) => some (bs ++ bs2, ds ++ ds2, s2)

/-- All callback identifiers wired into a list of submitted batches. -/
def batchesCbs (bs : List (List RedisCmd)) : List Nat :=
  bs.flatten.map cmdCb

/-- The callback identifiers registered by a sequence of events. -/
def evCbs : List (Ev V) → List Nat
  | [] => []
  | .set _ _ cb :: rest => cb :: evCbs rest
  | .get _ cb :: rest => cb :: evCbs rest
  | .del _ cb :: rest => cb :: evCbs rest
  | .windowEnd :: rest => evCbs rest

/-- The callback identifiers pending in the state, in the order `flush`
would wire them (sets, then deletes, then gets). -/
def stateCbs (s : CacheConnector V) : List Nat :=
  s.sets.map (fun e => e.2.2) ++ s.deletes.map (fun e => e.2) ++ s.gets.map (fun e => e.2)

/-- How a get's callback ends up being called by the completion closure:
either a two-argument call `callback(error, value)` (with `value = none`
standing for JS `null`), or a one-argument call `callback(error)` after a
failed `JSON.parse`. -/
inductive CbInvocation (V : Type) where
  | result (error : Option String) (value : Option V)
  | parseFailure (error : String)
deriving DecidableEq, Repr

/-- The completion closure `flush` wires to each pipelined `get` (lines
143-159 of the source): `result === null` reports `callback(error, null)`;
otherwise `JSON.parse` — failure reports `callback(e)`, success reports
`callback(null, parsedResult)`, discarding `error`. -/
def getHandler (deserialize : String → Except String V)
    (error : Option String) (result : Option String) : CbInvocation V :=
  match result with
  | none => .result error none
  | some str =>
    match deserialize str with
    | .error e => .parseFailure e
    | .ok v => .result none (some v)

/-- Is the event a registration call (as opposed to the window closing)? -/
def isReg : Ev V → Bool
  | .set _ _ _ => true
  | .get _ _ => true
  | .del _ _ => true
  | .windowEnd => false

/-- The key a registration event addresses (irrelevant for `windowEnd`). -/
def evKey : Ev V → String
  | .set k _ _ => k
  | .get k _ => k
  | .del k _ => k
  | .windowEnd => ""

/-- Does any of the three pending maps hold the key? -/
def stateHasKey (s : CacheConnector V) (k : String) : Bool :=
  mapHas s.sets k || mapHas s.gets k || mapHas s.deletes k

/-- Total number of pending operations. -/
def numPending (s : CacheConnector V) : Nat :=
  s.sets.length + s.deletes.length + s.gets.length

/-- The callback identifier a registration event carries (irrelevant for
`windowEnd`). -/
def evCb : Ev V → Nat
  | .set _ _ cb => cb
  | .get _ cb => cb
  | .del _ cb => cb
  | .windowEnd => 0

/-- Position of a command's kind in the fixed grouping `flush` produces:
write commands first, then deletions, then reads. -/
def kindRank : RedisCmd → Nat
  | .setex _ _ _ _ => 0
  | .set _ _ _ => 0
  | .del _ _ => 1
  | .get _ _ => 2

/-- Is the command a write (`setex` or plain `set`)? -/
def isWrite : RedisCmd → Bool
  | .setex _ _ _ _ => true
  | .set _ _ _ => true
  | .del _ _ => false
  | .get _ _ => false

/-- Is the command a `setex` carrying exactly the given expiration? -/
def isSetexWith (n : Nat) : RedisCmd → Bool
  | .setex _ t _ _ => t == n
  | _ => false

/-- Is the command a plain `set` with no expiration attached? -/
def isPlainSet : RedisCmd → Bool
  | .set _ _ _ => true
  | _ => false

/-- A serializer that always succeeds, as `JSON.stringify` does on ordinary
serializable values. -/
def serOk : Unit → Option String := fun _ => some "null"

/-- A serializer that always throws, as `JSON.stringify` does on a circular
structure or a BigInt value. -/
def serFail : Unit → Option String := fun _ => none

/-- No expiration configured (`options.ttl` undefined). -/
def noTtl : Options := { ttl := none }

/-- A three-second expiration configured. -/
def ttl3 : Options := { ttl := some 3 }

/-- One window: set key "a" (callback 0), then delete key "a" (callback 1),
then the window closes. -/
def setThenDeleteEvents : List (Ev Unit) :=
  [Ev.set "a" () 0, Ev.del "a" 1, Ev.windowEnd]

/-- Leaves a pending delete (callback 1) and a pending set (callback 2),
both for key "a". -/
def deleteConflictEvents : List (Ev Unit) :=
  [Ev.del "a" 1, Ev.set "a" () 2]

theorem mapHas_cons (e : String × α) (m : List (String × α)) (k : String) :
    mapHas (e :: m) k = ((e.1 == k) || mapHas m k) := by
  simp [mapHas]

theorem mapSet_of_not_has (m : List (String × α)) (k : String) (v : α)
    (h : mapHas m k = false) : mapSet m k v = m ++ [(k, v)] := by
  induction m with
  | nil => rfl
  | cons e rest ih =>
    rw [mapHas_cons, Bool.or_eq_false_iff] at h
    rw [mapSet, if_neg (by simp [h.1]), ih h.2]
    rfl

theorem mapDelete_of_not_has (m : List (String × α)) (k : String)
    (h : mapHas m k = false) : mapDelete m k = m := by
  induction m with
  | nil => rfl
  | cons e rest ih =>
    rw [mapHas_cons, Bool.or_eq_false_iff] at h
    rw [mapDelete, if_neg (by simp [h.1]), ih h.2]

theorem mapLookup_of_not_has (m : List (String × α)) (k : String)
    (h : mapHas m k = false) : mapLookup m k = none := by
  induction m with
  | nil => rfl
  | cons e rest ih =>
    rw [mapHas_cons, Bool.or_eq_false_iff] at h
    rw [mapLookup, if_neg (by simp [h.1]), ih h.2]

theorem mapHas_eq_false_of_lookup_none (m : List (String × α)) (k : String)
    (h : mapLookup m k = none) : mapHas m k = false := by
  induction m with
  | nil => rfl
  | cons e rest ih =>
    rw [mapLookup] at h
    by_cases hek : e.1 = k
    · rw [if_pos (by simp [hek])] at h; cases h
    · rw [if_neg (by simp [hek])] at h
      rw [mapHas_cons, ih h, Bool.or_false]
      simp [hek]

theorem mapHas_mapSet (m : List (String × α)) (k k' : String) (v : α) :
    mapHas (mapSet m k v) k' = (mapHas m k' || (k == k')) := by
  induction m with
  | nil => simp [mapHas, mapSet]
  | cons e rest ih =>
    by_cases hek : e.1 = k
    · rw [mapSet, if_pos (by simp [hek]), mapHas_cons, mapHas_cons, hek]
      cases hkk : (k == k') <;> simp [hkk]
    · rw [mapSet, if_neg (by simp [hek]), mapHas_cons, mapHas_cons, ih, Bool.or_assoc]

theorem mapLookup_perm (m : List (String × α)) (k : String) (v : α)
    (h : mapLookup m k = some v) : m.Perm ((k, v) :: mapDelete m k) := by
  induction m with
  | nil => simp [mapLookup] at h
  | cons e rest ih =>
    by_cases hek : e.1 = k
    · rw [mapLookup, if_pos (by simp [hek])] at h
      rw [mapDelete, if_pos (by simp [hek])]
      cases h
      have : e = (k, e.2) := by rw [← hek]
      rw [this]
    · rw [mapLookup, if_neg (by simp [hek])] at h
      rw [mapDelete, if_neg (by simp [hek])]
      exact ((ih h).cons e).trans (List.Perm.swap _ _ _)

theorem cmdCb_writeCmd (opts : Options) (key value : String) (cb : Nat) :
    cmdCb (writeCmd opts key value cb) = cb := by
  cases opts with
  | mk ttl =>
    cases ttl with
    | none => rfl
    | some n =>
      by_cases h : n ≠ 0
      · simp [writeCmd, h, cmdCb]
      · simp [writeCmd, h, cmdCb]

theorem buildSetCmds_cbs (serialize : V → Option String) (opts : Options)
    (m : List (String × V × Nat)) (cmds : List RedisCmd)
    (h : buildSetCmds serialize opts m = some cmds) :
    cmds.map cmdCb = m.map (fun e => e.2.2) := by
  induction m generalizing cmds with
  | nil =>
    rw [buildSetCmds] at h
    cases h
    rfl
  | cons e rest ih =>
    obtain ⟨key, value, callback⟩ := e
    rw [buildSetCmds] at h
    cases hs : serialize value with
    | none => rw [hs] at h; cases h
    | some str =>
      rw [hs] at h
      cases hr : buildSetCmds serialize opts rest with
      | none => rw [hr] at h; cases h
      | some cmds' =>
        rw [hr] at h
        cases h
        simp [ih cmds' hr, cmdCb_writeCmd]

theorem buildSetCmds_total (serialize : V → Option String) (opts : Options)
    (m : List (String × V × Nat)) (hser : ∀ v : V, (serialize v).isSome = true) :
    (buildSetCmds serialize opts m).isSome = true := by
  induction m with
  | nil => rfl
  | cons e rest ih =>
    obtain ⟨key, value, callback⟩ := e
    rw [buildSetCmds]
    cases hs : serialize value with
    | none =>
      have hv := hser value
      rw [hs] at hv
      simp at hv
    | some str =>
      cases hr : buildSetCmds serialize opts rest with
      | none => rw [hr] at ih; simp at ih
      | some cmds => rfl

/-- A completed `flush` wires exactly the pending callbacks, in map order
(sets, deletes, gets), and leaves the cleared, disarmed state. -/
theorem flush_some (serialize : V → Option String) (opts : Options)
    (s : CacheConnector V) (b : List RedisCmd) (s' : CacheConnector V)
    (h : CacheConnector.flush serialize opts s = some (b, s')) :
    b.map cmdCb = stateCbs s ∧
      s' = { sets := [], gets := [], deletes := [], timeoutSet := false, queued := s.queued } := by
  rw [CacheConnector.flush] at h
  cases hb : buildSetCmds serialize opts s.sets with
  | none => rw [hb] at h; cases h
  | some setCmds =>
    rw [hb] at h
    cases h
    refine ⟨?_, rfl⟩
    simp only [List.map_append, List.map_map, stateCbs, buildSetCmds_cbs serialize opts _ _ hb]
    rfl

theorem flush_total (serialize : V → Option String) (opts : Options)
    (s : CacheConnector V) (hser : ∀ v : V, (serialize v).isSome = true) :
    (CacheConnector.flush serialize opts s).isSome = true := by
  rw [CacheConnector.flush]
  cases hb : buildSetCmds serialize opts s.sets with
  | none =>
    have := buildSetCmds_total serialize opts s.sets hser
    rw [hb] at this
    exact absurd this (by simp)
  | some setCmds => rfl

theorem scheduleFlush_sets (s : CacheConnector V) :
    (CacheConnector.scheduleFlush s).sets = s.sets := by
  rw [CacheConnector.scheduleFlush]
  split <;> rfl

theorem scheduleFlush_gets (s : CacheConnector V) :
    (CacheConnector.scheduleFlush s).gets = s.gets := by
  rw [CacheConnector.scheduleFlush]
  split <;> rfl

theorem scheduleFlush_deletes (s : CacheConnector V) :
    (CacheConnector.scheduleFlush s).deletes = s.deletes := by
  rw [CacheConnector.scheduleFlush]
  split <;> rfl

theorem stateCbs_scheduleFlush (s : CacheConnector V) :
    stateCbs (CacheConnector.scheduleFlush s) = stateCbs s := by
  rw [CacheConnector.scheduleFlush]
  split <;> rfl

theorem batchesCbs_append (bs1 bs2 : List (List RedisCmd)) :
    batchesCbs (bs1 ++ bs2) = batchesCbs bs1 ++ batchesCbs bs2 := by
  simp [batchesCbs]

theorem batchesCbs_cons (b : List RedisCmd) (bs : List (List RedisCmd)) :
    batchesCbs (b :: bs) = b.map cmdCb ++ batchesCbs bs := by
  simp [batchesCbs]

theorem evCbs_cons (e : Ev V) (rest : List (Ev V)) :
    evCbs (e :: rest) = evCbs [e] ++ evCbs rest := by
  cases e <;> rfl

/-- Each drained flush moves exactly the pending callbacks into its batch. -/
theorem drainTicks_cbs_perm (serialize : V → Option String) (opts : Options)
    (n : Nat) (s : CacheConnector V) (bs : List (List RedisCmd)) (s' : CacheConnector V)
    (h : CacheConnector.drainTicks serialize opts n s = some (bs, s')) :
    (batchesCbs bs ++ stateCbs s').Perm (stateCbs s) := by
  induction n generalizing s bs with
  | zero =>
    rw [CacheConnector.drainTicks] at h
    simp only [Option.some.injEq, Prod.mk.injEq] at h
    obtain ⟨rfl, rfl⟩ := h
    simp [batchesCbs]
  | succ n ih =>
    rw [CacheConnector.drainTicks] at h
    split at h
    · cases h
    · rename_i batch sf hf
      split at h
      · cases h
      · rename_i bs2 s2 hd
        simp only [Option.some.injEq, Prod.mk.injEq] at h
        obtain ⟨rfl, rfl⟩ := h
        have hfs := flush_some serialize opts s batch sf hf
        obtain ⟨hb, hsf⟩ := hfs
        have hrec := ih sf bs2 hd
        subst hsf
        have hb1 : batchesCbs (batch :: bs2) = stateCbs s ++ batchesCbs bs2 := by
          simp [batchesCbs, hb]
        rw [List.perm_iff_count]
        intro a
        have c1 := hrec.count_eq a
        simp only [List.count_append, stateCbs, List.map_nil, List.nil_append,
          List.append_nil, List.count_nil] at c1
        simp only [hb1, List.count_append, stateCbs]
        omega

/-- One step of the connector conserves callbacks: the callbacks wired into
the batches it submits, plus the callbacks it discards, plus the callbacks
left pending, are exactly the previously pending callbacks plus the newly
registered one. -/
theorem step_cbs_perm (serialize : V → Option String) (opts : Options) (e : Ev V)
    (s : CacheConnector V) (bs : List (List RedisCmd)) (ds : List Nat)
    (s1 : CacheConnector V)
    (h : step serialize opts e s = some (bs, ds, s1)) :
    (batchesCbs bs ++ ds ++ stateCbs s1).Perm (stateCbs s ++ evCbs [e]) := by
  cases e with
  | set k v cb =>
    rw [step, CacheConnector.set] at h
    by_cases hk : mapHas s.sets k = true
    · rw [if_pos hk] at h
      cases hf : CacheConnector.flush serialize opts s with
      | none => rw [hf] at h; cases h
      | some pair =>
        obtain ⟨batch, sf⟩ := pair
        rw [hf] at h
        simp only [Option.some.injEq, Prod.mk.injEq] at h
        obtain ⟨rfl, rfl, rfl⟩ := h
        obtain ⟨hb, rfl⟩ := flush_some serialize opts s batch sf hf
        have hb1 : batchesCbs [batch] = stateCbs s := by
          simp [batchesCbs, hb]
        rw [List.perm_iff_count]
        intro a
        simp only [List.count_append, hb1, stateCbs, scheduleFlush_sets,
          scheduleFlush_gets, scheduleFlush_deletes, mapSet, evCbs, List.map_cons,
          List.map_nil, List.count_cons, List.count_nil, List.nil_append,
          List.append_nil]
    · rw [if_neg hk] at h
      simp only [Option.some.injEq, Prod.mk.injEq] at h
      obtain ⟨rfl, rfl, rfl⟩ := h
      rw [List.perm_iff_count]
      intro a
      simp only [batchesCbs, List.flatten_nil, List.map_nil, List.count_nil, stateCbs,
        scheduleFlush_sets, scheduleFlush_gets, scheduleFlush_deletes,
        mapSet_of_not_has s.sets k _ (by simpa using hk), evCbs, List.map_append,
        List.count_append, List.map_cons, List.nil_append, List.append_nil,
        List.count_cons]
      omega
  | get k cb =>
    rw [step, CacheConnector.get] at h
    by_cases hk : mapHas s.gets k = true
    · rw [if_pos hk] at h
      cases hf : CacheConnector.flush serialize opts s with
      | none => rw [hf] at h; cases h
      | some pair =>
        obtain ⟨batch, sf⟩ := pair
        rw [hf] at h
        simp only [Option.some.injEq, Prod.mk.injEq] at h
        obtain ⟨rfl, rfl, rfl⟩ := h
        obtain ⟨hb, rfl⟩ := flush_some serialize opts s batch sf hf
        have hb1 : batchesCbs [batch] = stateCbs s := by
          simp [batchesCbs, hb]
        rw [List.perm_iff_count]
        intro a
        simp only [List.count_append, hb1, stateCbs, scheduleFlush_sets,
          scheduleFlush_gets, scheduleFlush_deletes, mapSet, evCbs, List.map_cons,
          List.map_nil, List.count_cons, List.count_nil, List.nil_append,
          List.append_nil]
    · rw [if_neg hk] at h
      simp only [Option.some.injEq, Prod.mk.injEq] at h
      obtain ⟨rfl, rfl, rfl⟩ := h
      rw [List.perm_iff_count]
      intro a
      simp only [batchesCbs, List.flatten_nil, List.map_nil, List.count_nil, stateCbs,
        scheduleFlush_sets, scheduleFlush_gets, scheduleFlush_deletes,
        mapSet_of_not_has s.gets k _ (by simpa using hk), evCbs, List.map_append,
        List.count_append, List.map_cons, List.nil_append, List.append_nil,
        List.count_cons]
      omega
  | del k cb =>
    rw [step] at h
    simp only [CacheConnector.delete] at h
    have hdrop : ∀ a : Nat, (s.sets.map (fun e => e.2.2)).count a =
        ((mapDelete s.sets k).map (fun e => e.2.2)).count a +
          (CacheConnector.droppedSetCbs s.sets k).count a := by
      intro a
      cases hl : mapLookup s.sets k with
      | none =>
        rw [mapDelete_of_not_has s.sets k (mapHas_eq_false_of_lookup_none s.sets k hl)]
        simp [CacheConnector.droppedSetCbs, hl]
      | some vc =>
        have hperm := (mapLookup_perm s.sets k vc hl).map (fun e => e.2.2)
        have hc := hperm.count_eq a
        simp only [List.map_cons, List.count_cons] at hc
        simp only [CacheConnector.droppedSetCbs, hl, List.count_cons, List.count_nil]
        omega
    by_cases hk : mapHas s.deletes k = true
    · rw [if_pos hk] at h
      cases hf : CacheConnector.flush serialize opts { s with sets := mapDelete s.sets k } with
      | none => rw [hf] at h; cases h
      | some pair =>
        obtain ⟨batch, sf⟩ := pair
        rw [hf] at h
        simp only [Option.some.injEq, Prod.mk.injEq] at h
        obtain ⟨rfl, rfl, rfl⟩ := h
        obtain ⟨hb, rfl⟩ := flush_some serialize opts _ batch sf hf
        have hb1 : batchesCbs [batch] = stateCbs { s with sets := mapDelete s.sets k } := by
          simp [batchesCbs, hb]
        rw [List.perm_iff_count]
        intro a
        have hd := hdrop a
        simp only [List.count_append, hb1, stateCbs, scheduleFlush_sets,
          scheduleFlush_gets, scheduleFlush_deletes, mapSet, evCbs, List.map_cons,
          List.map_nil, List.count_cons, List.count_nil, List.nil_append,
          List.append_nil]
        omega
    · rw [if_neg hk] at h
      simp only [Option.some.injEq, Prod.mk.injEq] at h
      obtain ⟨rfl, rfl, rfl⟩ := h
      rw [List.perm_iff_count]
      intro a
      have hd := hdrop a
      simp only [batchesCbs, List.flatten_nil, List.map_nil, List.count_nil, stateCbs,
        scheduleFlush_sets, scheduleFlush_gets, scheduleFlush_deletes,
        mapSet_of_not_has s.deletes k _ (by simpa using hk), evCbs, List.map_append,
        List.count_append, List.map_cons, List.nil_append, List.append_nil,
        List.count_cons]
      omega
  | windowEnd =>
    rw [step, CacheConnector.windowEnd] at h
    cases hd : CacheConnector.drainTicks serialize opts s.queued { s with queued := 0 } with
    | none => rw [hd] at h; cases h
    | some pair =>
      obtain ⟨batches, sd⟩ := pair
      rw [hd] at h
      simp only [Option.some.injEq, Prod.mk.injEq] at h
      obtain ⟨rfl, rfl, rfl⟩ := h
      have hdp := drainTicks_cbs_perm serialize opts s.queued _ batches sd hd
      rw [List.perm_iff_count]
      intro a
      have c1 := hdp.count_eq a
      simp only [List.count_append, stateCbs, evCbs, List.count_nil, List.append_nil,
        List.nil_append] at c1 ⊢
      omega

/-- Running a sequence of events conserves callbacks: batched plus discarded
plus still-pending equals previously-pending plus registered. -/
theorem run_cbs_perm (serialize : V → Option String) (opts : Options) (evs : List (Ev V))
    (s : CacheConnector V) (bs : List (List RedisCmd)) (ds : List Nat)
    (sF : CacheConnector V)
    (h : run serialize opts evs s = some (bs, ds, sF)) :
    (batchesCbs bs ++ ds ++ stateCbs sF).Perm (stateCbs s ++ evCbs evs) := by
  induction evs generalizing s bs ds with
  | nil =>
    rw [run] at h
    simp only [Option.some.injEq, Prod.mk.injEq] at h
    obtain ⟨rfl, rfl, rfl⟩ := h
    simp [batchesCbs, evCbs]
  | cons e rest ih =>
    rw [run] at h
    split at h
    · cases h
    · rename_i bs1 ds1 s1 hstep
      split at h
      · cases h
      · rename_i bs2 ds2 s2 hrest
        simp only [Option.some.injEq, Prod.mk.injEq] at h
        obtain ⟨rfl, rfl, rfl⟩ := h
        have h1 := step_cbs_perm serialize opts e s bs1 ds1 s1 hstep
        have h2 := ih s1 bs2 ds2 hrest
        rw [List.perm_iff_count]
        intro a
        have c1 := h1.count_eq a
        have c2 := h2.count_eq a
        rw [evCbs_cons]
        simp only [batchesCbs_append, List.count_append] at c1 c2 ⊢
        omega

theorem run_append (serialize : V → Option String) (opts : Options)
    (evs1 evs2 : List (Ev V)) (s : CacheConnector V) :
    run serialize opts (evs1 ++ evs2) s =
      match run serialize opts evs1 s with
      | none => none
      | some (bs1, ds1, s1) =>
        match run serialize opts evs2 s1 with
        | none => none
        | some (bs2, ds2, s2) => some (bs1 ++ bs2, ds1 ++ ds2, s2) := by
  induction evs1 generalizing s with
  | nil =>
    cases h2 : run serialize opts evs2 s with
    | none => simp [run, h2]
    | some out =>
      obtain ⟨bs2, ds2, s2⟩ := out
      simp [run, h2]
  | cons e rest ih =>
    cases hstep : step serialize opts e s with
    | none => simp [run, hstep]
    | some out =>
      obtain ⟨bs1, ds1, s1⟩ := out
      simp only [List.cons_append, run, hstep, List.append_eq]
      rw [ih s1]
      cases hr : run serialize opts rest s1 with
      | none => simp [hr]
      | some out2 =>
        obtain ⟨bsA, dsA, sA⟩ := out2
        cases h2 : run serialize opts evs2 sA with
        | none => simp [hr, h2]
        | some out3 =>
          obtain ⟨bsB, dsB, sB⟩ := out3
          simp [hr, h2, List.append_assoc]

theorem scheduleFlush_timeoutSet (s : CacheConnector V) :
    (CacheConnector.scheduleFlush s).timeoutSet = true := by
  rw [CacheConnector.scheduleFlush]
  split
  · rename_i ht; exact ht
  · rfl

theorem scheduleFlush_queued (s : CacheConnector V) :
    (CacheConnector.scheduleFlush s).queued
      = s.queued + (if s.timeoutSet then 0 else 1) := by
  rw [CacheConnector.scheduleFlush]
  split
  · rename_i ht; simp [ht]
  · rename_i ht; simp [ht]

theorem stateCbs_length (s : CacheConnector V) :
    (stateCbs s).length = numPending s := by
  simp only [stateCbs, numPending, List.length_append, List.length_map]

theorem evCbs_reg_cons (e : Ev V) (rest : List (Ev V)) (h : isReg e = true) :
    evCbs (e :: rest) = evCb e :: evCbs rest := by
  cases e with
  | set k v cb => rfl
  | get k cb => rfl
  | del k cb => rfl
  | windowEnd => cases h

/-- Registering an operation whose key is fresh in all three maps: no flush
is forced, nothing is discarded, the callback is appended, the key is added,
the trigger ends armed, and at most one nextTick callback gets enqueued. -/
theorem step_fresh (serialize : V → Option String) (opts : Options) (e : Ev V)
    (s : CacheConnector V) (hreg : isReg e = true)
    (hfresh : stateHasKey s (evKey e) = false) :
    ∃ s1, step serialize opts e s = some ([], [], s1) ∧
      (stateCbs s1).Perm (stateCbs s ++ [evCb e]) ∧
      numPending s1 = numPending s + 1 ∧
      (∀ k2, stateHasKey s1 k2 = (stateHasKey s k2 || (evKey e == k2))) ∧
      s1.timeoutSet = true ∧
      s1.queued = s.queued + (if s.timeoutSet then 0 else 1) := by
  cases e with
  | windowEnd => cases hreg
  | set k v cb =>
    rw [evKey, stateHasKey, Bool.or_eq_false_iff, Bool.or_eq_false_iff] at hfresh
    obtain ⟨⟨h1, h2⟩, h3⟩ := hfresh
    refine ⟨CacheConnector.scheduleFlush { s with sets := mapSet s.sets k (v, cb) },
      ?_, ?_, ?_, ?_, scheduleFlush_timeoutSet _, ?_⟩
    · rw [step, CacheConnector.set, if_neg (by simp [h1])]
    · rw [List.perm_iff_count]
      intro a
      simp only [stateCbs, scheduleFlush_sets, scheduleFlush_gets, scheduleFlush_deletes,
        mapSet_of_not_has s.sets k _ h1, evCb, List.map_append, List.count_append,
        List.map_cons, List.map_nil, List.count_cons, List.count_nil]
      omega
    · simp only [numPending, scheduleFlush_sets, scheduleFlush_gets,
        scheduleFlush_deletes, mapSet_of_not_has s.sets k _ h1, List.length_append,
        List.length_cons, List.length_nil]
      omega
    · intro k2
      simp only [stateHasKey, evKey, scheduleFlush_sets, scheduleFlush_gets,
        scheduleFlush_deletes, mapHas_mapSet]
      simp only [Bool.or_assoc, Bool.or_comm, Bool.or_left_comm]
    · rw [scheduleFlush_queued]
  | get k cb =>
    rw [evKey, stateHasKey, Bool.or_eq_false_iff, Bool.or_eq_false_iff] at hfresh
    obtain ⟨⟨h1, h2⟩, h3⟩ := hfresh
    refine ⟨CacheConnector.scheduleFlush { s with gets := mapSet s.gets k cb },
      ?_, ?_, ?_, ?_, scheduleFlush_timeoutSet _, ?_⟩
    · rw [step, CacheConnector.get, if_neg (by simp [h2])]
    · rw [List.perm_iff_count]
      intro a
      simp only [stateCbs, scheduleFlush_sets, scheduleFlush_gets, scheduleFlush_deletes,
        mapSet_of_not_has s.gets k _ h2, evCb, List.map_append, List.count_append,
        List.map_cons, List.map_nil, List.count_cons, List.count_nil]
      omega
    · simp only [numPending, scheduleFlush_sets, scheduleFlush_gets,
        scheduleFlush_deletes, mapSet_of_not_has s.gets k _ h2, List.length_append,
        List.length_cons, List.length_nil]
      omega
    · intro k2
      simp only [stateHasKey, evKey, scheduleFlush_sets, scheduleFlush_gets,
        scheduleFlush_deletes, mapHas_mapSet]
      simp only [Bool.or_assoc, Bool.or_comm, Bool.or_left_comm]
    · rw [scheduleFlush_queued]
  | del k cb =>
    rw [evKey, stateHasKey, Bool.or_eq_false_iff, Bool.or_eq_false_iff] at hfresh
    obtain ⟨⟨h1, h2⟩, h3⟩ := hfresh
    refine ⟨CacheConnector.scheduleFlush
        { s with sets := mapDelete s.sets k, deletes := mapSet s.deletes k cb },
      ?_, ?_, ?_, ?_, scheduleFlush_timeoutSet _, ?_⟩
    · rw [step]
      simp only [CacheConnector.delete, CacheConnector.droppedSetCbs,
        mapLookup_of_not_has s.sets k h1]
      rw [if_neg (by simp [h3])]
    · rw [List.perm_iff_count]
      intro a
      simp only [stateCbs, scheduleFlush_sets, scheduleFlush_gets, scheduleFlush_deletes,
        mapDelete_of_not_has s.sets k h1, mapSet_of_not_has s.deletes k _ h3, evCb,
        List.map_append, List.count_append, List.map_cons, List.map_nil,
        List.count_cons, List.count_nil]
      omega
    · simp only [numPending, scheduleFlush_sets, scheduleFlush_gets,
        scheduleFlush_deletes, mapDelete_of_not_has s.sets k h1,
        mapSet_of_not_has s.deletes k _ h3, List.length_append, List.length_cons,
        List.length_nil]
      omega
    · intro k2
      simp only [stateHasKey, evKey, scheduleFlush_sets, scheduleFlush_gets,
        scheduleFlush_deletes, mapDelete_of_not_has s.sets k h1, mapHas_mapSet]
      simp only [Bool.or_assoc, Bool.or_comm, Bool.or_left_comm]
    · rw [scheduleFlush_queued]

/-- Registering a window of operations on pairwise-fresh keys: no flush, no
discard, all callbacks appended, one nextTick enqueued in total. -/
theorem run_regs_fresh (serialize : V → Option String) (opts : Options)
    (evs : List (Ev V)) (s : CacheConnector V)
    (hregs : ∀ e ∈ evs, isReg e = true)
    (hnodup : (evs.map evKey).Nodup)
    (hfresh : ∀ e ∈ evs, stateHasKey s (evKey e) = false) :
    ∃ s1, run serialize opts evs s = some ([], [], s1) ∧
      (stateCbs s1).Perm (stateCbs s ++ evCbs evs) ∧
      numPending s1 = numPending s + evs.length ∧
      (∀ k2, stateHasKey s1 k2
        = (stateHasKey s k2 || (evs.map evKey).any (fun x => x == k2))) ∧
      s1.timeoutSet = (s.timeoutSet || !evs.isEmpty) ∧
      s1.queued = s.queued + (if (s.timeoutSet || evs.isEmpty) then 0 else 1) := by
  induction evs generalizing s with
  | nil =>
    refine ⟨s, rfl, by simp [evCbs], by simp, ?_, by simp, by simp⟩
    intro k2
    simp
  | cons e rest ih =>
    have he := hregs e (List.mem_cons_self e rest)
    have hf := hfresh e (List.mem_cons_self e rest)
    obtain ⟨sm, hstep, hperm, hnum, hkeys, htime, hqueue⟩ :=
      step_fresh serialize opts e s he hf
    have hnodup' : (rest.map evKey).Nodup := by
      rw [List.map_cons, List.nodup_cons] at hnodup
      exact hnodup.2
    have hout : evKey e ∉ rest.map evKey := by
      rw [List.map_cons, List.nodup_cons] at hnodup
      exact hnodup.1
    have hfresh' : ∀ e2 ∈ rest, stateHasKey sm (evKey e2) = false := by
      intro e2 he2
      rw [hkeys (evKey e2), Bool.or_eq_false_iff]
      refine ⟨hfresh e2 (List.mem_cons_of_mem e he2), ?_⟩
      have hne : evKey e ≠ evKey e2 := by
        intro hcontra
        exact hout (hcontra ▸ List.mem_map_of_mem evKey he2)
      simp [hne]
    obtain ⟨s1, hrun, hperm2, hnum2, hkeys2, htime2, hqueue2⟩ :=
      ih sm (fun e2 he2 => hregs e2 (List.mem_cons_of_mem e he2)) hnodup' hfresh'
    refine ⟨s1, ?_, ?_, ?_, ?_, ?_, ?_⟩
    · simp only [run, hstep, hrun, List.nil_append]
    · rw [List.perm_iff_count]
      intro a
      have c1 := hperm.count_eq a
      have c2 := hperm2.count_eq a
      rw [evCbs_reg_cons e rest he]
      simp only [List.count_append, List.count_cons, List.count_nil] at c1 c2 ⊢
      omega
    · rw [hnum2, hnum, List.length_cons]
      omega
    · intro k2
      rw [hkeys2 k2, hkeys k2, List.map_cons, List.any_cons, Bool.or_assoc]
    · rw [htime2, htime]
      simp
    · rw [hqueue2, hqueue, htime]
      simp only [List.isEmpty_cons, Bool.or_false]
      cases s.timeoutSet <;> simp

theorem writeCmd_kindRank (opts : Options) (key value : String) (cb : Nat) :
    kindRank (writeCmd opts key value cb) = 0 := by
  cases opts with
  | mk ttl =>
    cases ttl with
    | none => rfl
    | some n =>
      by_cases h : n ≠ 0
      · simp [writeCmd, h, kindRank]
      · simp [writeCmd, h, kindRank]

theorem buildSetCmds_rank (serialize : V → Option String) (opts : Options)
    (m : List (String × V × Nat)) (cmds : List RedisCmd)
    (h : buildSetCmds serialize opts m = some cmds) :
    ∀ c ∈ cmds, kindRank c = 0 := by
  induction m generalizing cmds with
  | nil =>
    rw [buildSetCmds] at h
    cases h
    intro c hc
    cases hc
  | cons e rest ih =>
    obtain ⟨key, value, callback⟩ := e
    rw [buildSetCmds] at h
    cases hs : serialize value with
    | none => rw [hs] at h; cases h
    | some str =>
      rw [hs] at h
      cases hr : buildSetCmds serialize opts rest with
      | none => rw [hr] at h; cases h
      | some cmds' =>
        rw [hr] at h
        cases h
        intro c hc
        rcases List.mem_cons.mp hc with hc | hc
        · rw [hc, writeCmd_kindRank]
        · exact ih cmds' hr c hc

theorem pairwise_rank_const (l : List RedisCmd) (r : Nat)
    (h : ∀ c ∈ l, kindRank c = r) :
    l.Pairwise (fun c1 c2 => kindRank c1 ≤ kindRank c2) := by
  induction l with
  | nil => exact List.Pairwise.nil
  | cons c rest ih =>
    refine List.Pairwise.cons ?_ (ih fun c2 hc2 => h c2 (List.mem_cons_of_mem _ hc2))
    intro c2 hc2
    rw [h c (List.mem_cons_self _ _), h c2 (List.mem_cons_of_mem _ hc2)]

/-- Any completed flush submits its commands grouped by kind: writes first,
then deletions, then reads. -/
theorem flush_grouped (serialize : V → Option String) (opts : Options)
    (s : CacheConnector V) (b : List RedisCmd) (s' : CacheConnector V)
    (h : CacheConnector.flush serialize opts s = some (b, s')) :
    b.Pairwise (fun c1 c2 => kindRank c1 ≤ kindRank c2) := by
  rw [CacheConnector.flush] at h
  cases hb : buildSetCmds serialize opts s.sets with
  | none => rw [hb] at h; cases h
  | some setCmds =>
    rw [hb] at h
    simp only [Option.some.injEq, Prod.mk.injEq] at h
    obtain ⟨rfl, rfl⟩ := h
    have hset : ∀ c ∈ setCmds, kindRank c = 0 := buildSetCmds_rank serialize opts _ _ hb
    have hdel : ∀ c ∈ s.deletes.map (fun e => RedisCmd.del e.1 e.2), kindRank c = 1 := by
      intro c hc
      obtain ⟨e, _, rfl⟩ := List.mem_map.mp hc
      rfl
    have hget : ∀ c ∈ s.gets.map (fun e => RedisCmd.get e.1 e.2), kindRank c = 2 := by
      intro c hc
      obtain ⟨e, _, rfl⟩ := List.mem_map.mp hc
      rfl
    rw [List.pairwise_append]
    refine ⟨?_, pairwise_rank_const _ 2 hget, ?_⟩
    · rw [List.pairwise_append]
      refine ⟨pairwise_rank_const setCmds 0 hset, pairwise_rank_const _ 1 hdel, ?_⟩
      intro c1 h1 c2 h2
      rw [hset c1 h1, hdel c2 h2]
      omega
    · intro c1 h1 c2 h2
      rw [hget c2 h2]
      rcases List.mem_append.mp h1 with h1 | h1
      · rw [hset c1 h1]; omega
      · rw [hdel c1 h1]; omega

theorem drainTicks_batch_from_flush (serialize : V → Option String) (opts : Options)
    (n : Nat) (s : CacheConnector V) (bs : List (List RedisCmd)) (s' : CacheConnector V)
    (h : CacheConnector.drainTicks serialize opts n s = some (bs, s'))
    (b : List RedisCmd) (hb : b ∈ bs) :
    ∃ s0 s2, CacheConnector.flush serialize opts s0 = some (b, s2) := by
  induction n generalizing s bs with
  | zero =>
    rw [CacheConnector.drainTicks] at h
    simp only [Option.some.injEq, Prod.mk.injEq] at h
    obtain ⟨rfl, rfl⟩ := h
    cases hb
  | succ n ih =>
    rw [CacheConnector.drainTicks] at h
    split at h
    · cases h
    · rename_i batch sf hf
      split at h
      · cases h
      · rename_i bs2 s2 hd
        simp only [Option.some.injEq, Prod.mk.injEq] at h
        obtain ⟨rfl, rfl⟩ := h
        rcases List.mem_cons.mp hb with rfl | hb2
        · exact ⟨s, sf, hf⟩
        · exact ih sf bs2 hd hb2

theorem step_batch_from_flush (serialize : V → Option String) (opts : Options)
    (e : Ev V) (s : CacheConnector V) (bs : List (List RedisCmd)) (ds : List Nat)
    (s1 : CacheConnector V) (h : step serialize opts e s = some (bs, ds, s1))
    (b : List RedisCmd) (hb : b ∈ bs) :
    ∃ s0 s2, CacheConnector.flush serialize opts s0 = some (b, s2) := by
  cases e with
  | set k v cb =>
    rw [step, CacheConnector.set] at h
    by_cases hk : mapHas s.sets k = true
    · rw [if_pos hk] at h
      cases hf : CacheConnector.flush serialize opts s with
      | none => rw [hf] at h; cases h
      | some pair =>
        obtain ⟨batch, sf⟩ := pair
        rw [hf] at h
        simp only [Option.some.injEq, Prod.mk.injEq] at h
        obtain ⟨rfl, rfl, rfl⟩ := h
        rcases List.mem_singleton.mp hb with rfl
        exact ⟨s, sf, hf⟩
    · rw [if_neg hk] at h
      simp only [Option.some.injEq, Prod.mk.injEq] at h
      obtain ⟨rfl, rfl, rfl⟩ := h
      cases hb
  | get k cb =>
    rw [step, CacheConnector.get] at h
    by_cases hk : mapHas s.gets k = true
    · rw [if_pos hk] at h
      cases hf : CacheConnector.flush serialize opts s with
      | none => rw [hf] at h; cases h
      | some pair =>
        obtain ⟨batch, sf⟩ := pair
        rw [hf] at h
        simp only [Option.some.injEq, Prod.mk.injEq] at h
        obtain ⟨rfl, rfl, rfl⟩ := h
        rcases List.mem_singleton.mp hb with rfl
        exact ⟨s, sf, hf⟩
    · rw [if_neg hk] at h
      simp only [Option.some.injEq, Prod.mk.injEq] at h
      obtain ⟨rfl, rfl, rfl⟩ := h
      cases hb
  | del k cb =>
    rw [step] at h
    simp only [CacheConnector.delete] at h
    by_cases hk : mapHas s.deletes k = true
    · rw [if_pos hk] at h
      cases hf : CacheConnector.flush serialize opts { s with sets := mapDelete s.sets k } with
      | none => rw [hf] at h; cases h
      | some pair =>
        obtain ⟨batch, sf⟩ := pair
        rw [hf] at h
        simp only [Option.some.injEq, Prod.mk.injEq] at h
        obtain ⟨rfl, rfl, rfl⟩ := h
        rcases List.mem_singleton.mp hb with rfl
        exact ⟨_, sf, hf⟩
    · rw [if_neg hk] at h
      simp only [Option.some.injEq, Prod.mk.injEq] at h
      obtain ⟨rfl, rfl, rfl⟩ := h
      cases hb
  | windowEnd =>
    rw [step, CacheConnector.windowEnd] at h
    cases hd : CacheConnector.drainTicks serialize opts s.queued { s with queued := 0 } with
    | none => rw [hd] at h; cases h
    | some pair =>
      obtain ⟨batches, sd⟩ := pair
      rw [hd] at h
      simp only [Option.some.injEq, Prod.mk.injEq] at h
      obtain ⟨rfl, rfl, rfl⟩ := h
      exact drainTicks_batch_from_flush serialize opts s.queued _ batches sd hd b hb

/-- Every batch a run submits is the output of some flush. -/
theorem run_batch_from_flush (serialize : V → Option String) (opts : Options)
    (evs : List (Ev V)) (s : CacheConnector V) (bs : List (List RedisCmd))
    (ds : List Nat) (sF : CacheConnector V)
    (h : run serialize opts evs s = some (bs, ds, sF))
    (b : List RedisCmd) (hb : b ∈ bs) :
    ∃ s0 s2, CacheConnector.flush serialize opts s0 = some (b, s2) := by
  induction evs generalizing s bs ds with
  | nil =>
    rw [run] at h
    simp only [Option.some.injEq, Prod.mk.injEq] at h
    obtain ⟨rfl, rfl, rfl⟩ := h
    cases hb
  | cons e rest ih =>
    rw [run] at h
    split at h
    · cases h
    · rename_i bs1 ds1 s1 hstep
      split at h
      · cases h
      · rename_i bs2 ds2 s2 hrest
        simp only [Option.some.injEq, Prod.mk.injEq] at h
        obtain ⟨rfl, rfl, rfl⟩ := h
        rcases List.mem_append.mp hb with hb1 | hb2
        · exact step_batch_from_flush serialize opts e s bs1 ds1 s1 hstep b hb1
        · exact ih s1 bs2 ds2 hrest hb2

theorem buildSetCmds_mem (serialize : V → Option String) (opts : Options)
    (m : List (String × V × Nat)) (cmds : List RedisCmd)
    (h : buildSetCmds serialize opts m = some cmds) :
    ∀ c ∈ cmds, ∃ key str cb2, c = writeCmd opts key str cb2 := by
  induction m generalizing cmds with
  | nil =>
    rw [buildSetCmds] at h
    cases h
    intro c hc
    cases hc
  | cons e rest ih =>
    obtain ⟨key, value, callback⟩ := e
    rw [buildSetCmds] at h
    cases hs : serialize value with
    | none => rw [hs] at h; cases h
    | some str =>
      rw [hs] at h
      cases hr : buildSetCmds serialize opts rest with
      | none => rw [hr] at h; cases h
      | some cmds' =>
        rw [hr] at h
        cases h
        intro c hc
        rcases List.mem_cons.mp hc with hc | hc
        · exact ⟨key, str, callback, hc⟩
        · exact ih cmds' hr c hc

theorem writeCmd_isWrite (opts : Options) (key value : String) (cb : Nat) :
    isWrite (writeCmd opts key value cb) = true := by
  cases opts with
  | mk ttl =>
    cases ttl with
    | none => rfl
    | some n =>
      by_cases h : n ≠ 0
      · simp [writeCmd, h, isWrite]
      · simp [writeCmd, h, isWrite]

/-- C3: within any single flush of any run, the commands of the pipelined
batch are grouped by kind in the fixed order — all writes first, then all
deletions, then all reads — regardless of registration order. -/
theorem c3_kind_grouping (V : Type) (serialize : V → Option String) (opts : Options)
    (evs : List (Ev V)) (s : CacheConnector V) (bs : List (List RedisCmd))
    (ds : List Nat) (sF : CacheConnector V)
    (h : run serialize opts evs s = some (bs, ds, sF))
    (b : List RedisCmd) (hb : b ∈ bs) :
    b.Pairwise (fun c1 c2 => kindRank c1 ≤ kindRank c2) := by
  obtain ⟨s0, s2, hf⟩ := run_batch_from_flush serialize opts evs s bs ds sF h b hb
  exact flush_grouped serialize opts s0 b s2 hf

/-- C3 witness: a get, a delete and a set registered in that order come out
of the single flush as the write, then the deletion, then the read. -/
theorem c3_kind_grouping_witness :
    ([RedisCmd.set "s" "null" 3, RedisCmd.del "d" 2,
        RedisCmd.get "g" 1]).Pairwise (fun c1 c2 => kindRank c1 ≤ kindRank c2) :=
  c3_kind_grouping Unit serOk noTtl
    [Ev.get "g" 1, Ev.del "d" 2, Ev.set "s" () 3, Ev.windowEnd] (initialState Unit)
    [[RedisCmd.set "s" "null" 3, RedisCmd.del "d" 2, RedisCmd.get "g" 1]] []
    (initialState Unit) (by rfl) _ (List.mem_singleton.mpr rfl)

/-- C8: after any completed flush all three pending maps are empty and the
armed flag is cleared; flushing the resulting state again submits an empty
batch and leaves the state unchanged, so nothing drained can be read back or
flushed a second time. -/
theorem c8_flush_clears (V : Type) (serialize : V → Option String) (opts : Options)
    (s : CacheConnector V) (b : List RedisCmd) (s' : CacheConnector V)
    (h : CacheConnector.flush serialize opts s = some (b, s')) :
    s'.sets = [] ∧ s'.gets = [] ∧ s'.deletes = [] ∧ s'.timeoutSet = false ∧
      CacheConnector.flush serialize opts s' = some ([], s') := by
  obtain ⟨-, rfl⟩ := flush_some serialize opts s b s' h
  exact ⟨rfl, rfl, rfl, rfl, rfl⟩

/-- C8 witness: flushing a state with one pending operation of each kind. -/
theorem c8_flush_clears_witness :
    ({ sets := [], gets := [], deletes := [], timeoutSet := false, queued := 1 }
        : CacheConnector Unit).sets = [] ∧
    ({ sets := [], gets := [], deletes := [], timeoutSet := false, queued := 1 }
        : CacheConnector Unit).gets = [] ∧
    ({ sets := [], gets := [], deletes := [], timeoutSet := false, queued := 1 }
        : CacheConnector Unit).deletes = [] ∧
    ({ sets := [], gets := [], deletes := [], timeoutSet := false, queued := 1 }
        : CacheConnector Unit).timeoutSet = false ∧
    CacheConnector.flush serOk noTtl
        { sets := [], gets := [], deletes := [], timeoutSet := false, queued := 1 }
      = some ([], { sets := [], gets := [], deletes := [], timeoutSet := false,
                    queued := 1 }) :=
  c8_flush_clears Unit serOk noTtl
    { sets := [("a", ((), 5))], gets := [("b", 6)], deletes := [("c", 7)],
      timeoutSet := true, queued := 1 }
    [RedisCmd.set "a" "null" 5, RedisCmd.del "c" 7, RedisCmd.get "b" 6]
    { sets := [], gets := [], deletes := [], timeoutSet := false, queued := 1 }
    (by rfl)

/-- C4: the completion closure of a pipelined get reports a missing value as
`callback(error, null)` (never a synthesized not-found error), reports a
deserialization failure as a one-argument `callback(e)`, and reports a
successful parse as `callback(null, parsed)`, discarding whatever error the
store returned alongside the value. -/
theorem c4_get_result_handling (V : Type) (deserialize : String → Except String V)
    (error : Option String) (result : Option String) :
    (result = none →
        getHandler deserialize error result = CbInvocation.result error none) ∧
    (∀ str e, result = some str → deserialize str = Except.error e →
        getHandler deserialize error result = CbInvocation.parseFailure e) ∧
    (∀ str v, result = some str → deserialize str = Except.ok v →
        getHandler deserialize error result = CbInvocation.result none (some v)) := by
  refine ⟨?_, ?_, ?_⟩
  · intro h
    rw [h]
    rfl
  · intro str e h1 h2
    rw [h1]
    simp [getHandler, h2]
  · intro str v h1 h2
    rw [h1]
    simp [getHandler, h2]

/-- C4 witness: a decoder accepting only "1"; a missing value with a store
error, a value that fails to parse, and a value that parses while the store
also reported an error. -/
theorem c4_get_result_handling_witness :
    getHandler (fun s => if s = "1" then Except.ok (1 : Nat) else Except.error "bad")
        (some "oops") none = CbInvocation.result (some "oops") none ∧
    getHandler (fun s => if s = "1" then Except.ok (1 : Nat) else Except.error "bad")
        none (some "x") = CbInvocation.parseFailure "bad" ∧
    getHandler (fun s => if s = "1" then Except.ok (1 : Nat) else Except.error "bad")
        (some "ignored") (some "1") = CbInvocation.result none (some 1) := by
  refine ⟨?_, ?_, ?_⟩
  · exact (c4_get_result_handling Nat
      (fun s => if s = "1" then Except.ok 1 else Except.error "bad")
      (some "oops") none).1 rfl
  · exact (c4_get_result_handling Nat
      (fun s => if s = "1" then Except.ok 1 else Except.error "bad")
      none (some "x")).2.1 "x" "bad" rfl (by rfl)
  · exact (c4_get_result_handling Nat
      (fun s => if s = "1" then Except.ok 1 else Except.error "bad")
      (some "ignored") (some "1")).2.2 "1" 1 rfl (by rfl)

/-- C6: in any completed flush, when a positive expiration is configured
every write command is a `setex` carrying it; when the setting is absent or
zero every write command is a plain `set`; and the batch holds exactly one
write command per pending set. -/
theorem c6_expiration_passthrough (V : Type) (serialize : V → Option String)
    (opts : Options) (s : CacheConnector V) (b : List RedisCmd)
    (s' : CacheConnector V)
    (h : CacheConnector.flush serialize opts s = some (b, s')) :
    (∀ n, opts.ttl = some n → n ≠ 0 →
        ∀ c ∈ b, isWrite c = true → isSetexWith n c = true) ∧
    ((opts.ttl = none ∨ opts.ttl = some 0) →
        ∀ c ∈ b, isWrite c = true → isPlainSet c = true) ∧
    b.countP (fun c => isWrite c) = s.sets.length := by
  rw [CacheConnector.flush] at h
  cases hbs : buildSetCmds serialize opts s.sets with
  | none => rw [hbs] at h; cases h
  | some setCmds =>
    rw [hbs] at h
    simp only [Option.some.injEq, Prod.mk.injEq] at h
    obtain ⟨rfl, rfl⟩ := h
    have hmem := buildSetCmds_mem serialize opts _ _ hbs
    refine ⟨?_, ?_, ?_⟩
    · intro n hn hnz c hc hw
      rcases List.mem_append.mp hc with hc | hc
      · rcases List.mem_append.mp hc with hc | hc
        · obtain ⟨key, str, cb2, rfl⟩ := hmem c hc
          simp [writeCmd, hn, hnz, isSetexWith]
        · obtain ⟨e, -, rfl⟩ := List.mem_map.mp hc
          simp [isWrite] at hw
      · obtain ⟨e, -, rfl⟩ := List.mem_map.mp hc
        simp [isWrite] at hw
    · intro hzero c hc hw
      rcases List.mem_append.mp hc with hc | hc
      · rcases List.mem_append.mp hc with hc | hc
        · obtain ⟨key, str, cb2, rfl⟩ := hmem c hc
          rcases hzero with hn | hn
          · simp [writeCmd, hn, isPlainSet]
          · simp [writeCmd, hn, isPlainSet]
        · obtain ⟨e, -, rfl⟩ := List.mem_map.mp hc
          simp [isWrite] at hw
      · obtain ⟨e, -, rfl⟩ := List.mem_map.mp hc
        simp [isWrite] at hw
    · simp only [List.countP_append]
      have h1 : setCmds.countP (fun c => isWrite c) = setCmds.length := by
        rw [List.countP_eq_length]
        intro c hc
        obtain ⟨key, str, cb2, rfl⟩ := hmem c hc
        exact writeCmd_isWrite opts key str cb2
      have hlen : setCmds.length = s.sets.length := by
        have hc := buildSetCmds_cbs serialize opts _ _ hbs
        calc setCmds.length = (setCmds.map cmdCb).length := (List.length_map _ _).symm
          _ = (s.sets.map (fun e => e.2.2)).length := by rw [hc]
          _ = s.sets.length := List.length_map _ _
      have h2 : (s.deletes.map (fun e => RedisCmd.del e.1 e.2)).countP
          (fun c => isWrite c) = 0 := by
        rw [List.countP_eq_zero]
        intro c hc
        obtain ⟨e, -, rfl⟩ := List.mem_map.mp hc
        simp [isWrite]
      have h3 : (s.gets.map (fun e => RedisCmd.get e.1 e.2)).countP
          (fun c => isWrite c) = 0 := by
        rw [List.countP_eq_zero]
        intro c hc
        obtain ⟨e, -, rfl⟩ := List.mem_map.mp hc
        simp [isWrite]
      rw [h1, h2, h3, hlen]
      omega

/-- C6 witness: the same pending set flushed once with a 3-second expiration
and once with no expiration configured. -/
theorem c6_expiration_passthrough_witness :
    isSetexWith 3 (RedisCmd.setex "a" 3 "null" 7) = true ∧
    isPlainSet (RedisCmd.set "a" "null" 7) = true ∧
    ([RedisCmd.setex "a" 3 "null" 7].countP (fun c => isWrite c)
      = ([("a", ((), 7))] : List (String × Unit × Nat)).length) := by
  have hp := c6_expiration_passthrough Unit serOk ttl3
    { sets := [("a", ((), 7))], gets := [], deletes := [], timeoutSet := true, queued := 1 }
    [RedisCmd.setex "a" 3 "null" 7]
    { sets := [], gets := [], deletes := [], timeoutSet := false, queued := 1 }
    (by rfl)
  have hz := c6_expiration_passthrough Unit serOk noTtl
    { sets := [("a", ((), 7))], gets := [], deletes := [], timeoutSet := true, queued := 1 }
    [RedisCmd.set "a" "null" 7]
    { sets := [], gets := [], deletes := [], timeoutSet := false, queued := 1 }
    (by rfl)
  refine ⟨?_, ?_, hp.2.2⟩
  · exact hp.1 3 rfl (by decide) _ (List.mem_singleton.mpr rfl) rfl
  · exact hz.2.1 (Or.inl rfl) _ (List.mem_singleton.mpr rfl) rfl

theorem drainTicks_one (serialize : V → Option String) (opts : Options)
    (s : CacheConnector V) :
    CacheConnector.drainTicks serialize opts 1 s =
      match CacheConnector.flush serialize opts s with
      | none => none
      | some (batch, s1) => some ([batch], s1) := by
  cases hf : CacheConnector.flush serialize opts s with
  | none => simp [CacheConnector.drainTicks, hf]
  | some pair =>
    obtain ⟨batch, s1⟩ := pair
    simp [CacheConnector.drainTicks, hf]

/-- C5: the deferred trigger is a boolean flag (arming an armed connector
changes nothing), and a window of registrations on pairwise-distinct keys
produces exactly one batch submission holding one command per registration —
the minimum number of flushes. -/
theorem c5_single_flush_per_window :
    (∀ (V : Type) (s : CacheConnector V), s.timeoutSet = true →
        CacheConnector.scheduleFlush s = s) ∧
    (∀ (V : Type) (serialize : V → Option String) (opts : Options)
        (evs : List (Ev V)) (bs : List (List RedisCmd)) (ds : List Nat)
        (sF : CacheConnector V),
      (∀ e ∈ evs, isReg e = true) → (evs.map evKey).Nodup → evs ≠ [] →
      run serialize opts (evs ++ [Ev.windowEnd]) (initialState V)
        = some (bs, ds, sF) →
      bs.length = 1 ∧ ds = [] ∧ bs.flatten.length = evs.length ∧
        (bs.flatten.map cmdCb).Perm (evCbs evs)) := by
  constructor
  · intro V s h
    rw [CacheConnector.scheduleFlush, if_pos h]
  · intro V serialize opts evs bs ds sF hregs hnodup hne h
    obtain ⟨s1, hrun, hperm, hnum, -, -, hqueue⟩ :=
      run_regs_fresh serialize opts evs (initialState V) hregs hnodup
        (fun e _ => rfl)
    have hie : evs.isEmpty = false := by
      cases hevs : evs.isEmpty
      · rfl
      · exact absurd (List.isEmpty_iff.mp hevs) hne
    have hq : s1.queued = 1 := by
      rw [hqueue]
      simp [initialState, hie]
    rw [run_append serialize opts evs [Ev.windowEnd] (initialState V), hrun] at h
    simp only [run, step, CacheConnector.windowEnd, hq, drainTicks_one] at h
    cases hf : CacheConnector.flush serialize opts { s1 with queued := 0 } with
    | none => rw [hf] at h; cases h
    | some pair =>
      obtain ⟨batch, s2⟩ := pair
      rw [hf] at h
      simp only [Option.some.injEq, Prod.mk.injEq, List.append_nil,
        List.nil_append] at h
      obtain ⟨rfl, rfl, rfl⟩ := h
      obtain ⟨hbcbs, rfl⟩ := flush_some serialize opts _ batch _ hf
      have hsq : stateCbs { s1 with queued := 0 } = stateCbs s1 := rfl
      rw [hsq] at hbcbs
      have h0 : stateCbs (initialState V) = [] := rfl
      rw [h0, List.nil_append] at hperm
      refine ⟨rfl, rfl, ?_, ?_⟩
      · have : batch.length = (stateCbs s1).length := by
          rw [← hbcbs, List.length_map]
        simp only [List.flatten, List.append_nil]
        rw [this, stateCbs_length, hnum]
        simp [numPending, initialState]
      · simp only [List.flatten, List.append_nil]
        rw [hbcbs]
        exact hperm

/-- C5 witness: three operations on three distinct keys in one window. -/
theorem c5_single_flush_per_window_witness :
    CacheConnector.scheduleFlush
        ({ sets := [], gets := [], deletes := [], timeoutSet := true, queued := 1 }
          : CacheConnector Unit)
      = { sets := [], gets := [], deletes := [], timeoutSet := true, queued := 1 } ∧
    ([[RedisCmd.set "u" "null" 40, RedisCmd.del "w" 42, RedisCmd.get "v" 41]]).length
        = 1 ∧
    ([] : List Nat) = [] ∧
    ([[RedisCmd.set "u" "null" 40, RedisCmd.del "w" 42,
        RedisCmd.get "v" 41]]).flatten.length
      = ([Ev.set "u" () 40, Ev.get "v" 41, Ev.del "w" 42] : List (Ev Unit)).length ∧
    (([[RedisCmd.set "u" "null" 40, RedisCmd.del "w" 42,
        RedisCmd.get "v" 41]]).flatten.map cmdCb).Perm
      (evCbs ([Ev.set "u" () 40, Ev.get "v" 41, Ev.del "w" 42] : List (Ev Unit))) := by
  have h2 := c5_single_flush_per_window.2 Unit serOk noTtl
    [Ev.set "u" () 40, Ev.get "v" 41, Ev.del "w" 42]
    [[RedisCmd.set "u" "null" 40, RedisCmd.del "w" 42, RedisCmd.get "v" 41]] []
    (initialState Unit) (by decide) (by decide) (by simp) (by rfl)
  exact ⟨c5_single_flush_per_window.1 Unit _ rfl, h2.1, h2.2.1, h2.2.2.1, h2.2.2.2⟩

/-- C7: a pending set and a newly registered get for the same key coexist:
no flush is forced by the registration, and the next flush submits both in
the same single batch. -/
theorem c7_cross_kind_coexistence (V : Type) (serialize : V → Option String)
    (opts : Options) (s : CacheConnector V) (k : String) (v : V) (c1 c2 : Nat)
    (h1 : mapHas s.sets k = false) (h2 : mapHas s.gets k = false)
    (bs : List (List RedisCmd)) (ds : List Nat) (s' : CacheConnector V)
    (h : run serialize opts [Ev.set k v c1, Ev.get k c2] s = some (bs, ds, s')) :
    bs = [] ∧ ds = [] ∧ mapHas s'.sets k = true ∧ mapHas s'.gets k = true ∧
      ∀ b sF, CacheConnector.flush serialize opts s' = some (b, sF) →
        c1 ∈ b.map cmdCb ∧ RedisCmd.get k c2 ∈ b := by
  simp only [run, step, CacheConnector.set, CacheConnector.get, h1, h2,
    scheduleFlush_gets, Bool.false_eq_true, if_false] at h
  simp only [Option.some.injEq, Prod.mk.injEq, List.append_nil] at h
  obtain ⟨rfl, rfl, rfl⟩ := h
  refine ⟨rfl, rfl, ?_, ?_, ?_⟩
  · simp [scheduleFlush_sets, scheduleFlush_gets, mapHas_mapSet]
  · simp [scheduleFlush_sets, scheduleFlush_gets, mapHas_mapSet]
  · intro b sF hf
    constructor
    · obtain ⟨hbc, -⟩ := flush_some serialize opts _ b sF hf
      rw [hbc]
      have hmem : c1 ∈ (CacheConnector.scheduleFlush
          { CacheConnector.scheduleFlush { s with sets := mapSet s.sets k (v, c1) } with
            gets := mapSet s.gets k c2 }).sets.map (fun e => e.2.2) := by
        simp only [scheduleFlush_sets, mapSet_of_not_has s.sets k _ h1,
          List.map_append]
        exact List.mem_append_right _ (by simp)
      exact List.mem_append_left _ (List.mem_append_left _ hmem)
    · rw [CacheConnector.flush] at hf
      cases hbs : buildSetCmds serialize opts (CacheConnector.scheduleFlush
          { CacheConnector.scheduleFlush { s with sets := mapSet s.sets k (v, c1) } with
            gets := mapSet s.gets k c2 }).sets with
      | none => rw [hbs] at hf; cases hf
      | some setCmds =>
        rw [hbs] at hf
        simp only [Option.some.injEq, Prod.mk.injEq] at hf
        obtain ⟨rfl, -⟩ := hf
        refine List.mem_append_right _ ?_
        have : (k, c2) ∈ (CacheConnector.scheduleFlush
            { CacheConnector.scheduleFlush { s with sets := mapSet s.sets k (v, c1) } with
              gets := mapSet s.gets k c2 }).gets := by
          simp only [scheduleFlush_gets, mapSet_of_not_has s.gets k _ h2]
          exact List.mem_append_right _ (by simp)
        exact List.mem_map_of_mem (fun e => RedisCmd.get e.1 e.2) this

/-- C7 witness: set then get for key "a" in one window from the initial
state; the single flushed batch holds both commands. -/
theorem c7_cross_kind_coexistence_witness :
    mapHas ({ sets := [("a", ((), 1))], gets := [("a", 2)], deletes := [],
              timeoutSet := true, queued := 1 } : CacheConnector Unit).sets "a" = true ∧
    mapHas ({ sets := [("a", ((), 1))], gets := [("a", 2)], deletes := [],
              timeoutSet := true, queued := 1 } : CacheConnector Unit).gets "a" = true ∧
    1 ∈ ([RedisCmd.set "a" "null" 1, RedisCmd.get "a" 2].map cmdCb) ∧
    RedisCmd.get "a" 2 ∈ [RedisCmd.set "a" "null" 1, RedisCmd.get "a" 2] := by
  have h := c7_cross_kind_coexistence Unit serOk noTtl (initialState Unit) "a" () 1 2
    rfl rfl [] []
    { sets := [("a", ((), 1))], gets := [("a", 2)], deletes := [],
      timeoutSet := true, queued := 1 } (by rfl)
  have h5 := h.2.2.2.2 [RedisCmd.set "a" "null" 1, RedisCmd.get "a" 2]
    { sets := [], gets := [], deletes := [], timeoutSet := false, queued := 1 }
    (by rfl)
  exact ⟨h.2.2.1, h.2.2.2.1, h5.1, h5.2⟩

/-- C1 counterexample: set key "a" (callback 0) then delete key "a"
(callback 1) in one window.  The window closes, everything is flushed (the
final state is the initial one), the delete's callback is wired into the
batch, yet callback 0 appears in no submitted command: `delete` discarded it
at line 59 without invocation, refuting "each registered callback is invoked
exactly once". -/
theorem c1_counterexample :
    run serOk noTtl setThenDeleteEvents (initialState Unit)
        = some ([[RedisCmd.del "a" 1]], [0], initialState Unit) ∧
    0 ∈ evCbs setThenDeleteEvents ∧
    stateCbs (initialState Unit) = [] ∧
    (batchesCbs [[RedisCmd.del "a" 1]]).count 0 = 0 := by
  refine ⟨by rfl, by decide, rfl, by decide⟩

/-- C1 (amended): for every sequence of calls with pairwise-distinct
callbacks whose run completes with nothing left pending, each registered
callback is accounted for exactly once: invoked-command occurrences plus
line-59 discards (a delete removing a pending set for its key) sum to one,
so a callback is invoked exactly once unless such a delete discarded it. -/
theorem c1_callback_accounting (V : Type) (serialize : V → Option String)
    (opts : Options) (evs : List (Ev V)) (bs : List (List RedisCmd))
    (ds : List Nat) (sF : CacheConnector V)
    (h : run serialize opts evs (initialState V) = some (bs, ds, sF))
    (hnodup : (evCbs evs).Nodup) (hdone : stateCbs sF = []) :
    ∀ c ∈ evCbs evs, (batchesCbs bs).count c + ds.count c = 1 := by
  intro c hc
  have hperm := run_cbs_perm serialize opts evs (initialState V) bs ds sF h
  have hcount := hperm.count_eq c
  have h1 : (evCbs evs).count c = 1 := List.count_eq_one_of_mem hnodup hc
  have h0 : stateCbs (initialState V) = [] := rfl
  rw [hdone, h0] at hcount
  simp only [List.count_append, List.count_nil, List.nil_append] at hcount
  omega

/-- C1 witness: a set and a get on distinct keys in one window; both
callbacks are wired exactly once and nothing is discarded. -/
theorem c1_callback_accounting_witness :
    (batchesCbs [[RedisCmd.set "a" "null" 0, RedisCmd.get "b" 1]]).count 0
      + ([] : List Nat).count 0 = 1 := by
  have h := c1_callback_accounting Unit serOk noTtl
    [Ev.set "a" () 0, Ev.get "b" 1, Ev.windowEnd]
    [[RedisCmd.set "a" "null" 0, RedisCmd.get "b" 1]] [] (initialState Unit)
    (by rfl) (by decide) rfl
  exact h 0 (by decide)

/-- C2 counterexample: with a delete (callback 1) and a set (callback 2)
both pending for key "a", registering a second delete for "a" forces a
flush — but the submitted batch holds only the delete command: the pending
set for "a" was removed by line 59 before the flush, so the first batch does
NOT contain everything pending at that moment, refuting the claim for the
delete kind. -/
theorem c2_counterexample :
    run serOk noTtl deleteConflictEvents (initialState Unit)
        = some ([], [],
            { sets := [("a", ((), 2))], gets := [], deletes := [("a", 1)],
              timeoutSet := true, queued := 1 }) ∧
    mapHas ({ sets := [("a", ((), 2))], gets := [], deletes := [("a", 1)],
              timeoutSet := true, queued := 1 } : CacheConnector Unit).sets "a"
        = true ∧
    step serOk noTtl (Ev.del "a" 3)
        { sets := [("a", ((), 2))], gets := [], deletes := [("a", 1)],
          timeoutSet := true, queued := 1 }
      = some ([[RedisCmd.del "a" 1]], [2],
          { sets := [], gets := [], deletes := [("a", 3)], timeoutSet := true,
            queued := 2 }) ∧
    2 ∉ batchesCbs [[RedisCmd.del "a" 1]] := by
  refine ⟨by rfl, by rfl, by rfl, by decide⟩

/-- C2 (amended): a same-kind same-key collision forces one synchronous
flush of the whole current batch before the new operation is inserted; the
post-state holds exactly the new operation, so the next flush submits
exactly its command.  For the set and get kinds the forced batch is the full
pending batch; for the delete kind it is the pending batch after line 59 has
already removed any pending set for that key (that set is dropped, not
submitted). -/
theorem c2_conflict_forces_split (V : Type) (serialize : V → Option String)
    (opts : Options) (s : CacheConnector V) (k : String) (v : V) (cb : Nat) :
    (mapHas s.sets k = true → ∀ b s1,
      CacheConnector.flush serialize opts s = some (b, s1) →
      CacheConnector.set serialize opts k v cb s
          = some ([b], [],
              { sets := [(k, (v, cb))], gets := [], deletes := [],
                timeoutSet := true, queued := s.queued + 1 }) ∧
        ∀ str, serialize v = some str →
          CacheConnector.flush serialize opts
              ({ sets := [(k, (v, cb))], gets := [], deletes := [],
                 timeoutSet := true, queued := s.queued + 1 } : CacheConnector V)
            = some ([writeCmd opts k str cb],
                { sets := [], gets := [], deletes := [], timeoutSet := false,
                  queued := s.queued + 1 })) ∧
    (mapHas s.gets k = true → ∀ b s1,
      CacheConnector.flush serialize opts s = some (b, s1) →
      CacheConnector.get serialize opts k cb s
          = some ([b], [],
              { sets := [], gets := [(k, cb)], deletes := [],
                timeoutSet := true, queued := s.queued + 1 }) ∧
        CacheConnector.flush serialize opts
            ({ sets := [], gets := [(k, cb)], deletes := [],
               timeoutSet := true, queued := s.queued + 1 } : CacheConnector V)
          = some ([RedisCmd.get k cb],
              { sets := [], gets := [], deletes := [], timeoutSet := false,
                queued := s.queued + 1 })) ∧
    (mapHas s.deletes k = true → ∀ b s1,
      CacheConnector.flush serialize opts { s with sets := mapDelete s.sets k }
          = some (b, s1) →
      CacheConnector.delete serialize opts k cb s
          = some ([b], CacheConnector.droppedSetCbs s.sets k,
              { sets := [], gets := [], deletes := [(k, cb)],
                timeoutSet := true, queued := s.queued + 1 }) ∧
        CacheConnector.flush serialize opts
            ({ sets := [], gets := [], deletes := [(k, cb)],
               timeoutSet := true, queued := s.queued + 1 } : CacheConnector V)
          = some ([RedisCmd.del k cb],
              { sets := [], gets := [], deletes := [], timeoutSet := false,
                queued := s.queued + 1 })) := by
  refine ⟨?_, ?_, ?_⟩
  · intro hk b s1 hf
    obtain ⟨-, rfl⟩ := flush_some serialize opts s b s1 hf
    constructor
    · rw [CacheConnector.set, if_pos hk, hf]
      rfl
    · intro str hstr
      simp only [CacheConnector.flush, buildSetCmds, hstr]
      rfl
  · intro hk b s1 hf
    obtain ⟨-, rfl⟩ := flush_some serialize opts s b s1 hf
    constructor
    · rw [CacheConnector.get, if_pos hk, hf]
      rfl
    · rfl
  · intro hk b s1 hf
    have hfs := flush_some serialize opts _ b s1 hf
    obtain ⟨-, rfl⟩ := hfs
    constructor
    · simp only [CacheConnector.delete]
      rw [if_pos hk, hf]
      rfl
    · rfl

/-- C2 witness: a state with a pending set, get and delete all for key "a";
each same-kind registration forces the flush and leaves exactly the new
operation pending for the next flush. -/
theorem c2_conflict_forces_split_witness :
    (CacheConnector.set serOk noTtl "a" () 20
        { sets := [("a", ((), 10))], gets := [("a", 11)], deletes := [("a", 12)],
          timeoutSet := true, queued := 1 }
      = some ([[RedisCmd.set "a" "null" 10, RedisCmd.del "a" 12, RedisCmd.get "a" 11]],
          [], { sets := [("a", ((), 20))], gets := [], deletes := [],
                timeoutSet := true, queued := 2 })) ∧
    (CacheConnector.flush serOk noTtl
        ({ sets := [("a", ((), 20))], gets := [], deletes := [],
           timeoutSet := true, queued := 2 } : CacheConnector Unit)
      = some ([RedisCmd.set "a" "null" 20],
          { sets := [], gets := [], deletes := [], timeoutSet := false,
            queued := 2 })) ∧
    (CacheConnector.get serOk noTtl "a" 20
        { sets := [("a", ((), 10))], gets := [("a", 11)], deletes := [("a", 12)],
          timeoutSet := true, queued := 1 }
      = some ([[RedisCmd.set "a" "null" 10, RedisCmd.del "a" 12, RedisCmd.get "a" 11]],
          [], { sets := [], gets := [("a", 20)], deletes := [],
                timeoutSet := true, queued := 2 })) ∧
    (CacheConnector.delete serOk noTtl "a" 20
        { sets := [("a", ((), 10))], gets := [("a", 11)], deletes := [("a", 12)],
          timeoutSet := true, queued := 1 }
      = some ([[RedisCmd.del "a" 12, RedisCmd.get "a" 11]], [10],
          { sets := [], gets := [], deletes := [("a", 20)],
            timeoutSet := true, queued := 2 })) := by
  obtain ⟨h1, h2, h3⟩ := c2_conflict_forces_split Unit serOk noTtl
    { sets := [("a", ((), 10))], gets := [("a", 11)], deletes := [("a", 12)],
      timeoutSet := true, queued := 1 } "a" () 20
  obtain ⟨h1a, h1b⟩ := h1 rfl
    [RedisCmd.set "a" "null" 10, RedisCmd.del "a" 12, RedisCmd.get "a" 11]
    { sets := [], gets := [], deletes := [], timeoutSet := false, queued := 1 }
    (by rfl)
  obtain ⟨h2a, -⟩ := h2 rfl
    [RedisCmd.set "a" "null" 10, RedisCmd.del "a" 12, RedisCmd.get "a" 11]
    { sets := [], gets := [], deletes := [], timeoutSet := false, queued := 1 }
    (by rfl)
  obtain ⟨h3a, -⟩ := h3 rfl
    [RedisCmd.del "a" 12, RedisCmd.get "a" 11]
    { sets := [], gets := [], deletes := [], timeoutSet := false, queued := 1 }
    (by rfl)
  exact ⟨h1a, h1b "null" rfl, h2a, h3a⟩

/-- C9 counterexample: when serialization of a pending value throws (as
`JSON.stringify` does on a circular structure), a registration that forces a
synchronous flush raises synchronously — both the single call and the whole
run abort instead of reporting through a callback, refuting "registration
calls never throw". -/
theorem c9_counterexample :
    step serFail noTtl (Ev.set "a" () 2)
        { sets := [("a", ((), 1))], gets := [], deletes := [],
          timeoutSet := true, queued := 1 }
      = none ∧
    run serFail noTtl [Ev.set "a" () 1, Ev.set "a" () 2] (initialState Unit)
      = none := by
  exact ⟨rfl, rfl⟩

/-- C9 (amended): provided serialization succeeds on every value, no event —
in particular no registration call — ever raises synchronously; the
exception can come only from `JSON.stringify` inside the forced flush. -/
theorem c9_no_sync_throw (V : Type) (serialize : V → Option String)
    (opts : Options) (hser : ∀ v : V, (serialize v).isSome = true)
    (e : Ev V) (s : CacheConnector V) :
    (step serialize opts e s).isSome = true := by
  have hflush : ∀ s2 : CacheConnector V,
      ∀ out, CacheConnector.flush serialize opts s2 = out → out ≠ none := by
    intro s2 out hout hnone
    have := flush_total serialize opts s2 hser
    rw [hout, hnone] at this
    cases this
  cases e with
  | set k v cb =>
    rw [step, CacheConnector.set]
    by_cases hk : mapHas s.sets k = true
    · rw [if_pos hk]
      cases hf : CacheConnector.flush serialize opts s with
      | none => exact absurd rfl (hflush s none hf)
      | some pair =>
        obtain ⟨batch, sf⟩ := pair
        rfl
    · rw [if_neg hk]
      rfl
  | get k cb =>
    rw [step, CacheConnector.get]
    by_cases hk : mapHas s.gets k = true
    · rw [if_pos hk]
      cases hf : CacheConnector.flush serialize opts s with
      | none => exact absurd rfl (hflush s none hf)
      | some pair =>
        obtain ⟨batch, sf⟩ := pair
        rfl
    · rw [if_neg hk]
      rfl
  | del k cb =>
    rw [step]
    simp only [CacheConnector.delete]
    by_cases hk : mapHas s.deletes k = true
    · rw [if_pos hk]
      cases hf : CacheConnector.flush serialize opts
          { s with sets := mapDelete s.sets k } with
      | none => exact absurd rfl (hflush _ none hf)
      | some pair =>
        obtain ⟨batch, sf⟩ := pair
        rfl
    · rw [if_neg hk]
      rfl
  | windowEnd =>
    rw [step, CacheConnector.windowEnd]
    have hdrain : ∀ n s2, (CacheConnector.drainTicks serialize opts
        n (s2 : CacheConnector V)).isSome = true := by
      intro n
      induction n with
      | zero => intro s2; rfl
      | succ n ih =>
        intro s2
        rw [CacheConnector.drainTicks]
        cases hf : CacheConnector.flush serialize opts s2 with
        | none => exact absurd rfl (hflush s2 none hf)
        | some pair =>
          obtain ⟨batch, sf⟩ := pair
          have := ih sf
          cases hd : CacheConnector.drainTicks serialize opts n sf with
          | none => rw [hd] at this; cases this
          | some pair2 =>
            obtain ⟨batches, s2'⟩ := pair2
            simp [hd]
    have := hdrain s.queued { s with queued := 0 }
    cases hd : CacheConnector.drainTicks serialize opts s.queued
        { s with queued := 0 } with
    | none => rw [hd] at this; cases this
    | some pair =>
      obtain ⟨batches, s2⟩ := pair
      rfl

/-- C9 witness: a conflicting set whose forced flush serializes the pending
value with a total serializer completes without raising. -/
theorem c9_no_sync_throw_witness :
    (step serOk noTtl (Ev.set "a" () 2)
        { sets := [("a", ((), 1))], gets := [], deletes := [],
          timeoutSet := true, queued := 1 }).isSome = true :=
  c9_no_sync_throw Unit serOk noTtl (fun _ => rfl) (Ev.set "a" () 2)
    { sets := [("a", ((), 1))], gets := [], deletes := [],
      timeoutSet := true, queued := 1 }

/-- C10: delete(k) removes any pending set for k from the sets mapping
without forcing a flush for that removal and leaves the gets mapping
unchanged; a flush is forced exactly when a delete for k was already
pending; and a callback discarded by that removal is never wired into any
submitted command of the run. -/
theorem c10_delete_prunes_pending_set (V : Type) (serialize : V → Option String)
    (opts : Options) (k : String) (cb : Nat) (s : CacheConnector V) :
    (mapHas s.deletes k = false →
      CacheConnector.delete serialize opts k cb s =
        some ([], CacheConnector.droppedSetCbs s.sets k,
          CacheConnector.scheduleFlush
            { s with sets := mapDelete s.sets k,
                     deletes := mapSet s.deletes k cb })) ∧
    (mapHas s.deletes k = true → ∀ b s1,
      CacheConnector.flush serialize opts { s with sets := mapDelete s.sets k }
          = some (b, s1) →
      CacheConnector.delete serialize opts k cb s =
        some ([b], CacheConnector.droppedSetCbs s.sets k,
          CacheConnector.scheduleFlush { s1 with deletes := mapSet s1.deletes k cb })) ∧
    (∀ evs bs ds sF, run serialize opts evs (initialState V) = some (bs, ds, sF) →
      (evCbs evs).Nodup → ∀ c ∈ ds, (batchesCbs bs).count c = 0) := by
  refine ⟨?_, ?_, ?_⟩
  · intro hk
    simp only [CacheConnector.delete]
    rw [if_neg (by simp [hk])]
  · intro hk b s1 hf
    simp only [CacheConnector.delete]
    rw [if_pos hk, hf]
  · intro evs bs ds sF h hnodup c hcds
    have hperm := run_cbs_perm serialize opts evs (initialState V) bs ds sF h
    have hcount := hperm.count_eq c
    have hds : 0 < ds.count c := List.count_pos_iff.mpr hcds
    have hev : (evCbs evs).count c ≤ 1 := List.nodup_iff_count_le_one.mp hnodup c
    have h0 : stateCbs (initialState V) = [] := rfl
    rw [h0] at hcount
    simp only [List.count_append, List.count_nil, List.nil_append] at hcount
    omega

/-- C10 witness: deleting "a" with a pending set and no pending delete
prunes the set silently; with a pending delete it forces the flush; and a
run in which a delete discards a set's callback never wires that callback
into any batch. -/
theorem c10_delete_prunes_pending_set_witness :
    (CacheConnector.delete serOk noTtl "a" 9
        { sets := [("a", ((), 5))], gets := [("x", 6)], deletes := [],
          timeoutSet := true, queued := 1 }
      = some ([], [5],
          { sets := [], gets := [("x", 6)], deletes := [("a", 9)],
            timeoutSet := true, queued := 1 })) ∧
    (CacheConnector.delete serOk noTtl "a" 9
        { sets := [("a", ((), 5))], gets := [("x", 6)], deletes := [("a", 7)],
          timeoutSet := true, queued := 1 }
      = some ([[RedisCmd.del "a" 7, RedisCmd.get "x" 6]], [5],
          { sets := [], gets := [], deletes := [("a", 9)],
            timeoutSet := true, queued := 2 })) ∧
    (batchesCbs [[RedisCmd.del "p" 4]]).count 3 = 0 := by
  refine ⟨?_, ?_, ?_⟩
  · exact (c10_delete_prunes_pending_set Unit serOk noTtl "a" 9
      { sets := [("a", ((), 5))], gets := [("x", 6)], deletes := [],
        timeoutSet := true, queued := 1 }).1 rfl
  · exact (c10_delete_prunes_pending_set Unit serOk noTtl "a" 9
      { sets := [("a", ((), 5))], gets := [("x", 6)], deletes := [("a", 7)],
        timeoutSet := true, queued := 1 }).2.1 rfl
      [RedisCmd.del "a" 7, RedisCmd.get "x" 6]
      { sets := [], gets := [], deletes := [], timeoutSet := false, queued := 1 }
      (by rfl)
  · exact (c10_delete_prunes_pending_set Unit serOk noTtl "p" 4
      (initialState Unit)).2.2 [Ev.set "p" () 3, Ev.del "p" 4, Ev.windowEnd]
      [[RedisCmd.del "p" 4]] [3] (initialState Unit) (by rfl) (by decide) 3
      (by decide)

end RedisCache
